import Mathlib

/-!
Shallow embedding of the WhatsApp group-analytics engine (`server` script):
the SQLite-backed event/message store, the per-group sync pass
(`checkMessages`), the poll scheduler (`checkAllGroups` + `setInterval`),
the `POST /api/groups` handler and the `GET /api/search` handler, together
with theorems checking the specification's claims against them.

Tables are modelled as Lean lists of rows (in insertion order); SQL
`DELETE ... ; INSERT ...` sequences become list filter-and-append;
the JavaScript `Set` objects become duplicate-free Lean lists preserving
insertion order.
-/

namespace WhatsappAnalytics

/-! ### Event store

The `events` table and the three delete-then-insert writers found in the
source: JOIN and LEAVE events are written with
`DELETE FROM events WHERE group_id = ? AND member_id = ? AND type = ?`
(no date in the WHERE clause) followed by an INSERT, while CERTIFICATE
events are written with
`DELETE FROM events WHERE group_id = ? AND member_id = ? AND type = 'CERTIFICATE' AND date = ?`
followed by an INSERT. -/

/-- One row of the `events` table (the AUTOINCREMENT id column is elided:
rows are identified by their position in the list). -/
structure EventRow where
  groupId : String
  groupName : String
  memberId : String
  memberName : String
  type : String
  timestamp : String
  date : String
deriving DecidableEq, Repr

/-- The four-part dedup key `(group_id, member_id, type, date)`. -/
structure EventKey where
  groupId : String
  memberId : String
  type : String
  date : String
deriving DecidableEq, Repr

/-- The dedup key of a stored row. -/
def eventKey (r : EventRow) : EventKey :=
  ⟨r.groupId, r.memberId, r.type, r.date⟩

/-- The `(group_id, member_id, type)` triple that the JOIN/LEAVE
DELETE statements actually key on (they omit the date). -/
def eventGmt (r : EventRow) : String × String × String :=
  (r.groupId, r.memberId, r.type)

/-- Writing one event, as the source does it:
for `CERTIFICATE` delete prior rows matching the full
`(group_id, member_id, type, date)` key, then insert;
for every other type (`JOIN`, `LEAVE`) delete prior rows matching
`(group_id, member_id, type)` — across *all* dates — then insert. -/
def storeEvent (store : List EventRow) (e : EventRow) : List EventRow :=
  if e.type = "CERTIFICATE" then
    (store.filter (fun r =>
      !(r.groupId == e.groupId && r.memberId == e.memberId &&
        r.type == "CERTIFICATE" && r.date == e.date))) ++ [e]
  else
    (store.filter (fun r =>
      !(r.groupId == e.groupId && r.memberId == e.memberId &&
        r.type == e.type))) ++ [e]

/-- Processing a sequence of events against an initially empty table. -/
def processEvents (es : List EventRow) : List EventRow :=
  es.foldl storeEvent []

/-- The stored rows carrying a given four-part key. -/
def rowsWithKey (store : List EventRow) (k : EventKey) : List EventRow :=
  store.filter (fun r => eventKey r == k)

/-- The stored rows carrying a given `(group_id, member_id, type)` triple. -/
def rowsWithGmt (store : List EventRow) (t : String × String × String) : List EventRow :=
  store.filter (fun r => eventGmt r == t)

/-- The last event of a given four-part key in a sequence, if any. -/
def lastWithKey (k : EventKey) : List EventRow → Option EventRow
  | [] => none
  | e :: rest =>
    match lastWithKey k rest with
    | some r => some r
    | none => if eventKey e == k then some e else none

/-- The last event of a given `(group_id, member_id, type)` triple in a
sequence, if any. -/
def lastWithGmt (t : String × String × String) : List EventRow → Option EventRow
  | [] => none
  | e :: rest =>
    match lastWithGmt t rest with
    | some r => some r
    | none => if eventGmt e == t then some e else none

theorem eventKey_eq_iff (r : EventRow) (k : EventKey) :
    eventKey r = k ↔ r.groupId = k.groupId ∧ r.memberId = k.memberId ∧
      r.type = k.type ∧ r.date = k.date := by
  cases k
  simp [eventKey, EventKey.mk.injEq]

theorem eventGmt_eq_iff (r : EventRow) (t : String × String × String) :
    eventGmt r = t ↔ r.groupId = t.1 ∧ r.memberId = t.2.1 ∧ r.type = t.2.2 := by
  cases t with
  | mk a bc =>
    cases bc
    simp [eventGmt, Prod.ext_iff]

/-- Effect of one `storeEvent` on the rows of a fixed CERTIFICATE key:
the new event's rows replace the old ones exactly when the keys agree. -/
theorem rowsWithKey_storeEvent (s : List EventRow) (e : EventRow) (k : EventKey)
    (hk : k.type = "CERTIFICATE") :
    rowsWithKey (storeEvent s e) k = if eventKey e = k then [e] else rowsWithKey s k := by
  by_cases he : e.type = "CERTIFICATE"
  · rw [storeEvent, if_pos he, rowsWithKey, List.filter_append, List.filter_filter]
    by_cases hek : eventKey e = k
    · rw [if_pos hek]
      have hnil : (s.filter fun r =>
          (eventKey r == k) && !(r.groupId == e.groupId && r.memberId == e.memberId &&
            r.type == "CERTIFICATE" && r.date == e.date)) = [] := by
        rw [List.filter_eq_nil_iff]
        intro r hr hcontr
        simp only [Bool.and_eq_true, beq_iff_eq, Bool.not_eq_true', Bool.and_eq_false_iff,
          beq_eq_false_iff_ne, ne_eq] at hcontr
        have hre : eventKey r = eventKey e := hcontr.1.trans hek.symm
        rw [eventKey_eq_iff] at hre
        simp only [eventKey] at hre
        rcases hcontr.2 with ((h | h) | h) | h
        · exact h hre.1
        · exact h hre.2.1
        · exact h (hre.2.2.1.trans he)
        · exact h hre.2.2.2
      rw [hnil, List.nil_append]
      have : eventKey e == k := by simp [hek]
      simp [List.filter_cons, this]
    · rw [if_neg hek]
      have hsingle : ([e].filter fun r => eventKey r == k) = [] := by
        simp [List.filter_cons, hek]
      rw [hsingle, List.append_nil, rowsWithKey]
      apply List.filter_congr
      intro r _
      by_cases hrk : eventKey r = k
      · have hk4 := (eventKey_eq_iff r k).mp hrk
        have hp : (r.groupId == e.groupId && r.memberId == e.memberId &&
            r.type == "CERTIFICATE" && r.date == e.date) = false := by
          by_contra hcon
          rw [Bool.not_eq_false] at hcon
          simp only [Bool.and_eq_true, beq_iff_eq] at hcon
          apply hek
          rw [eventKey_eq_iff]
          refine ⟨hcon.1.1.1.symm.trans hk4.1, hcon.1.1.2.symm.trans hk4.2.1, ?_, ?_⟩
          · rw [he, ← hcon.1.2, hk4.2.2.1]
          · rw [← hcon.2, hk4.2.2.2]
        simp [hp, hrk]
      · simp [hrk]
  · rw [storeEvent, if_neg he, rowsWithKey, List.filter_append, List.filter_filter]
    have hek : ¬ eventKey e = k := by
      intro hcon
      rw [eventKey_eq_iff] at hcon
      exact he (hcon.2.2.1.trans hk)
    rw [if_neg hek]
    have hsingle : ([e].filter fun r => eventKey r == k) = [] := by
      simp [List.filter_cons, hek]
    rw [hsingle, List.append_nil, rowsWithKey]
    apply List.filter_congr
    intro r _
    by_cases hrk : eventKey r = k
    · have hk4 := (eventKey_eq_iff r k).mp hrk
      have hp : (r.groupId == e.groupId && r.memberId == e.memberId &&
          r.type == e.type) = false := by
        by_contra hcon
        rw [Bool.not_eq_false] at hcon
        simp only [Bool.and_eq_true, beq_iff_eq] at hcon
        exact he (hcon.2.symm.trans (hk4.2.2.1.trans hk))
      simp [hp, hrk]
    · simp [hrk]

/-- Effect of one `storeEvent` on the rows of a fixed non-CERTIFICATE
`(group_id, member_id, type)` triple: the new event's row replaces all rows
of the triple exactly when the triples agree (the date is ignored). -/
theorem rowsWithGmt_storeEvent (s : List EventRow) (e : EventRow)
    (t : String × String × String) (ht : t.2.2 ≠ "CERTIFICATE") :
    rowsWithGmt (storeEvent s e) t = if eventGmt e = t then [e] else rowsWithGmt s t := by
  by_cases he : e.type = "CERTIFICATE"
  · rw [storeEvent, if_pos he, rowsWithGmt, List.filter_append, List.filter_filter]
    have het : ¬ eventGmt e = t := by
      intro hcon
      rw [eventGmt_eq_iff] at hcon
      exact ht (hcon.2.2.symm.trans he)
    rw [if_neg het]
    have hsingle : ([e].filter fun r => eventGmt r == t) = [] := by
      simp [List.filter_cons, het]
    rw [hsingle, List.append_nil, rowsWithGmt]
    apply List.filter_congr
    intro r _
    by_cases hrt : eventGmt r = t
    · have h3 := (eventGmt_eq_iff r t).mp hrt
      have hp : (r.groupId == e.groupId && r.memberId == e.memberId &&
          r.type == "CERTIFICATE" && r.date == e.date) = false := by
        by_contra hcon
        rw [Bool.not_eq_false] at hcon
        simp only [Bool.and_eq_true, beq_iff_eq] at hcon
        exact ht (h3.2.2.symm.trans hcon.1.2)
      simp [hp, hrt]
    · simp [hrt]
  · rw [storeEvent, if_neg he, rowsWithGmt, List.filter_append, List.filter_filter]
    by_cases het : eventGmt e = t
    · rw [if_pos het]
      have hnil : (s.filter fun r =>
          (eventGmt r == t) && !(r.groupId == e.groupId && r.memberId == e.memberId &&
            r.type == e.type)) = [] := by
        rw [List.filter_eq_nil_iff]
        intro r hr hcontr
        simp only [Bool.and_eq_true, beq_iff_eq, Bool.not_eq_true', Bool.and_eq_false_iff,
          beq_eq_false_iff_ne, ne_eq] at hcontr
        have hre : eventGmt r = eventGmt e := hcontr.1.trans het.symm
        rw [eventGmt_eq_iff] at hre
        simp only [eventGmt] at hre
        rcases hcontr.2 with h | h
        · rcases h with h | h
          · exact h hre.1
          · exact h hre.2.1
        · exact h hre.2.2
      rw [hnil, List.nil_append]
      have : eventGmt e == t := by simp [het]
      simp [List.filter_cons, this]
    · rw [if_neg het]
      have hsingle : ([e].filter fun r => eventGmt r == t) = [] := by
        simp [List.filter_cons, het]
      rw [hsingle, List.append_nil, rowsWithGmt]
      apply List.filter_congr
      intro r _
      by_cases hrt : eventGmt r = t
      · have h3 := (eventGmt_eq_iff r t).mp hrt
        have hp : (r.groupId == e.groupId && r.memberId == e.memberId &&
            r.type == e.type) = false := by
          by_contra hcon
          rw [Bool.not_eq_false] at hcon
          simp only [Bool.and_eq_true, beq_iff_eq] at hcon
          apply het
          rw [eventGmt_eq_iff]
          exact ⟨hcon.1.1.symm.trans h3.1, hcon.1.2.symm.trans h3.2.1,
            hcon.2.symm.trans h3.2.2⟩
        simp [hp, hrt]
      · simp [hrt]

theorem rowsWithKey_foldl (es : List EventRow) (s : List EventRow) (k : EventKey)
    (hk : k.type = "CERTIFICATE") :
    rowsWithKey (es.foldl storeEvent s) k =
      match lastWithKey k es with
      | some r => [r]
      | none => rowsWithKey s k := by
  induction es generalizing s with
  | nil => rfl
  | cons e rest ih =>
    rw [List.foldl_cons, ih (storeEvent s e), lastWithKey]
    cases lastWithKey k rest with
    | some r => rfl
    | none =>
      rw [rowsWithKey_storeEvent s e k hk]
      by_cases hek : eventKey e = k
      · have : eventKey e == k := by simp [hek]
        simp [hek, this]
      · have : (eventKey e == k) = false := by simp [hek]
        simp [hek, this]

theorem rowsWithGmt_foldl (es : List EventRow) (s : List EventRow)
    (t : String × String × String) (ht : t.2.2 ≠ "CERTIFICATE") :
    rowsWithGmt (es.foldl storeEvent s) t =
      match lastWithGmt t es with
      | some r => [r]
      | none => rowsWithGmt s t := by
  induction es generalizing s with
  | nil => rfl
  | cons e rest ih =>
    rw [List.foldl_cons, ih (storeEvent s e), lastWithGmt]
    cases lastWithGmt t rest with
    | some r => rfl
    | none =>
      rw [rowsWithGmt_storeEvent s e t ht]
      by_cases het : eventGmt e = t
      · have : eventGmt e == t := by simp [het]
        simp [het, this]
      · have : (eventGmt e == t) = false := by simp [het]
        simp [het, this]

/-- The full-key rows are the date-restriction of the triple's rows. -/
theorem rowsWithKey_eq_filter_gmt (s : List EventRow) (k : EventKey) :
    rowsWithKey s k =
      (rowsWithGmt s (k.groupId, k.memberId, k.type)).filter (fun r => r.date == k.date) := by
  rw [rowsWithKey, rowsWithGmt, List.filter_filter]
  apply List.filter_congr
  intro r _
  by_cases hrk : eventKey r = k
  · have h4 := (eventKey_eq_iff r k).mp hrk
    have : eventGmt r = (k.groupId, k.memberId, k.type) := by
      rw [eventGmt_eq_iff]
      exact ⟨h4.1, h4.2.1, h4.2.2.1⟩
    simp [hrk, this, h4.2.2.2]
  · have : ¬ (r.date = k.date ∧ eventGmt r = (k.groupId, k.memberId, k.type)) := by
      rintro ⟨hd, hg⟩
      rw [eventGmt_eq_iff] at hg
      exact hrk ((eventKey_eq_iff r k).mpr ⟨hg.1, hg.2.1, hg.2.2, hd⟩)
    have h1 : (eventKey r == k) = false := by
      rw [beq_eq_false_iff_ne]
      exact hrk
    rcases Decidable.not_and_iff_or_not.mp this with h | h
    · have h2 : (r.date == k.date) = false := by
        rw [beq_eq_false_iff_ne]
        exact h
      rw [h1, h2, Bool.false_and]
    · have h2 : (eventGmt r == (k.groupId, k.memberId, k.type)) = false := by
        rw [beq_eq_false_iff_ne]
        exact h
      rw [h1, h2, Bool.and_false]

/-- A JOIN event for member m1 of group g1 observed on 2024-01-01. -/
def joinJan1 : EventRow :=
  ⟨"g1", "Group One", "m1", "Member One", "JOIN", "2024-01-01T10:00:00.000Z", "2024-01-01"⟩

/-- A JOIN event for the same member and group on the next calendar day. -/
def joinJan2 : EventRow :=
  ⟨"g1", "Group One", "m1", "Member One", "JOIN", "2024-01-02T09:00:00.000Z", "2024-01-02"⟩

/-- Claim C1 counterexample: processing one JOIN event of key
`(g1, m1, JOIN, 2024-01-01)` followed by a JOIN of the same member on a
different date leaves zero rows for the first key (the JOIN delete ignores
the date), refuting "after N events of one key exactly one row remains ...
for JOIN, LEAVE and CERTIFICATE alike". -/
theorem C1_counterexample :
    (([joinJan1, joinJan2].filter
        (fun e => eventKey e == ⟨"g1", "m1", "JOIN", "2024-01-01"⟩)).length = 1) ∧
    rowsWithKey (processEvents [joinJan1, joinJan2]) ⟨"g1", "m1", "JOIN", "2024-01-01"⟩ = [] := by
  constructor
  · decide
  · decide

/-- Claim C1 (amended): at most one stored Event row exists per
`(groupId, memberId, type, date)` key, for every sequence of processed
events. For CERTIFICATE the delete-then-insert is keyed by the full
four-part key, so the surviving row is exactly the last CERTIFICATE event
of that key. For JOIN and LEAVE the delete omits the date: the store keeps
exactly the last event per `(groupId, memberId, type)` across *all* dates,
so a key's row also disappears when a later event of the same member and
type arrives on another date. -/
theorem C1_event_dedup :
    (∀ (es : List EventRow) (k : EventKey),
      (rowsWithKey (processEvents es) k).length ≤ 1) ∧
    (∀ (es : List EventRow) (k : EventKey), k.type = "CERTIFICATE" →
      rowsWithKey (processEvents es) k = (lastWithKey k es).toList) ∧
    (∀ (es : List EventRow) (t : String × String × String), t.2.2 ≠ "CERTIFICATE" →
      rowsWithGmt (processEvents es) t = (lastWithGmt t es).toList) := by
  have hcert : ∀ (es : List EventRow) (k : EventKey), k.type = "CERTIFICATE" →
      rowsWithKey (processEvents es) k = (lastWithKey k es).toList := by
    intro es k hk
    rw [processEvents, rowsWithKey_foldl es [] k hk]
    cases lastWithKey k es with
    | none => rfl
    | some r => rfl
  have hgmt : ∀ (es : List EventRow) (t : String × String × String), t.2.2 ≠ "CERTIFICATE" →
      rowsWithGmt (processEvents es) t = (lastWithGmt t es).toList := by
    intro es t ht
    rw [processEvents, rowsWithGmt_foldl es [] t ht]
    cases lastWithGmt t es with
    | none => rfl
    | some r => rfl
  refine ⟨?_, hcert, hgmt⟩
  intro es k
  by_cases hk : k.type = "CERTIFICATE"
  · rw [hcert es k hk]
    cases lastWithKey k es with
    | none => simp
    | some r => simp
  · rw [rowsWithKey_eq_filter_gmt]
    calc ((rowsWithGmt (processEvents es) (k.groupId, k.memberId, k.type)).filter
            (fun r => r.date == k.date)).length
        ≤ (rowsWithGmt (processEvents es) (k.groupId, k.memberId, k.type)).length :=
          List.length_filter_le _ _
      _ ≤ 1 := by
          rw [hgmt es (k.groupId, k.memberId, k.type) hk]
          cases lastWithGmt (k.groupId, k.memberId, k.type) es with
          | none => simp
          | some r => simp

/-- A CERTIFICATE (voice recording) event and a later one of the same key. -/
def certAm : EventRow :=
  ⟨"g1", "Group One", "20123456789", "Member One", "CERTIFICATE",
    "2024-01-01T10:00:00.000Z", "2024-01-01"⟩

/-- A later CERTIFICATE event with the same `(group, phone, date)` key. -/
def certPm : EventRow :=
  ⟨"g1", "Group One", "20123456789", "Member One", "CERTIFICATE",
    "2024-01-01T18:30:00.000Z", "2024-01-01"⟩

/-- Witness for `C1_event_dedup`: two CERTIFICATE events with the same
key leave exactly the later row in the store. -/
theorem C1_event_dedup_witness :
    rowsWithKey (processEvents [certAm, certPm])
      ⟨"g1", "20123456789", "CERTIFICATE", "2024-01-01"⟩ = [certPm] := by
  rw [C1_event_dedup.2.1 [certAm, certPm]
    ⟨"g1", "20123456789", "CERTIFICATE", "2024-01-01"⟩ rfl]
  decide

/-! ### Message store

The `messages` table has `id TEXT PRIMARY KEY`; messages are persisted with
`INSERT OR REPLACE INTO messages (id, group_id, group_name, sender,
sender_id, message, timestamp) VALUES (?, ?, ?, ?, ?, ?, ?)`, which
replaces any existing row carrying the same primary key. -/

/-- One row of the `messages` table (the `created_at` default column is
elided). -/
structure MessageRow where
  id : String
  groupId : String
  groupName : String
  sender : String
  senderId : String
  message : String
  timestamp : String
deriving DecidableEq, Repr

/-- `INSERT OR REPLACE` keyed by the `id` primary key: any row with the
same id is removed and the new row is inserted. -/
def upsertMessage (store : List MessageRow) (m : MessageRow) : List MessageRow :=
  (store.filter (fun r => !(r.id == m.id))) ++ [m]

/-- The stored rows carrying a given message id. -/
def rowsWithId (store : List MessageRow) (i : String) : List MessageRow :=
  store.filter (fun r => r.id == i)

/-- Effect of one upsert on the rows of a fixed id. -/
theorem rowsWithId_upsertMessage (s : List MessageRow) (m : MessageRow) (i : String) :
    rowsWithId (upsertMessage s m) i = if m.id = i then [m] else rowsWithId s i := by
  rw [upsertMessage, rowsWithId, List.filter_append, List.filter_filter]
  by_cases hmi : m.id = i
  · rw [if_pos hmi]
    have h1 : (s.filter fun r => (r.id == i) && !(r.id == m.id)) = [] := by
      rw [List.filter_eq_nil_iff]
      intro r _ h
      rw [hmi] at h
      simp at h
    rw [h1, List.nil_append]
    have : m.id == i := by simp [hmi]
    simp [List.filter_cons, this]
  · rw [if_neg hmi]
    have h1 : ([m].filter fun r => r.id == i) = [] := by
      simp [List.filter_cons, hmi]
    rw [h1, List.append_nil, rowsWithId]
    apply List.filter_congr
    intro r _
    by_cases hri : r.id = i
    · have : (r.id == m.id) = false := by
        rw [beq_eq_false_iff_ne]
        rw [hri]
        exact fun h => hmi h.symm
      simp [this]
    · have : (r.id == i) = false := by
        rw [beq_eq_false_iff_ne]
        exact hri
      rw [this, Bool.false_and]

theorem rowsWithId_foldl_le (ms : List MessageRow) (s : List MessageRow) (i : String)
    (hs : (rowsWithId s i).length ≤ 1) :
    (rowsWithId (ms.foldl upsertMessage s) i).length ≤ 1 := by
  induction ms generalizing s with
  | nil => exact hs
  | cons m rest ih =>
    rw [List.foldl_cons]
    apply ih
    rw [rowsWithId_upsertMessage]
    by_cases hmi : m.id = i
    · simp [hmi]
    · rw [if_neg hmi]
      exact hs

/-- Claim C4: the `messages` table holds at most one row per id.
Upserting a message whose id is already stored replaces the existing row
(the post-state holds exactly the new row under that id), and any sequence
of upserts starting from an empty table leaves at most one row per id. -/
theorem C4_message_upsert_unique :
    (∀ (store : List MessageRow) (m : MessageRow),
      rowsWithId (upsertMessage store m) m.id = [m]) ∧
    (∀ (ms : List MessageRow) (i : String),
      (rowsWithId (ms.foldl upsertMessage []) i).length ≤ 1) := by
  constructor
  · intro store m
    rw [rowsWithId_upsertMessage, if_pos rfl]
  · intro ms i
    apply rowsWithId_foldl_le
    simp [rowsWithId]

/-! ### Membership diff (member-change section of `checkMessages`)

Guarded by `DETECT_JOINS_LEAVES && group.participants`; on that path the
pass builds `currentMembers = new Set(group.participants.map(...))`, emits
a JOIN event for each current member not in `previousMembers` (skipped on
the first run), a LEAVE event for each previous member not in
`currentMembers` (same skip), sets `memberCount = currentMembers.size` and
replaces the snapshot with `currentMembers`. JavaScript `Set`s are
modelled as duplicate-free lists in insertion order. -/

/-- Outcome of the member-change section of one pass. -/
structure MemberDiffResult where
  joinedIds : List String
  leftIds : List String
  newSnapshot : List String
  newMemberCount : Nat
deriving DecidableEq, Repr

/-- The member-change section. `detect` is the combined guard
`DETECT_JOINS_LEAVES && group.participants`; when it is false nothing in
this section runs and the caches are untouched. -/
def checkMembers (detect : Bool) (isFirstRun : Bool)
    (previousMembers currentMembers : List String) (memberCount : Nat) : MemberDiffResult :=
  if detect then
    { joinedIds := currentMembers.filter
        (fun m => !(previousMembers.contains m) && !isFirstRun)
    , leftIds := previousMembers.filter
        (fun m => !(currentMembers.contains m) && !isFirstRun)
    , newSnapshot := currentMembers
    , newMemberCount := currentMembers.length }
  else
    { joinedIds := []
    , leftIds := []
    , newSnapshot := previousMembers
    , newMemberCount := memberCount }

theorem list_contains_iff (l : List String) (a : String) : l.contains a = true ↔ a ∈ l := by
  rw [List.contains_iff_exists_mem_beq]
  constructor
  · rintro ⟨b, hb, hab⟩
    rw [beq_iff_eq] at hab
    rw [hab]
    exact hb
  · intro h
    exact ⟨a, h, by simp⟩

/-- Claim C6: the baseline (first) pass emits zero JOIN and zero LEAVE
events regardless of the observed membership, and stores the fetched
member set as the snapshot without diffing. -/
theorem C6_baseline_no_events (previousMembers currentMembers : List String)
    (memberCount : Nat) :
    (checkMembers true true previousMembers currentMembers memberCount).joinedIds = [] ∧
    (checkMembers true true previousMembers currentMembers memberCount).leftIds = [] ∧
    (checkMembers true true previousMembers currentMembers memberCount).newSnapshot
      = currentMembers := by
  refine ⟨?_, ?_, rfl⟩
  · rw [checkMembers, if_pos rfl]
    simp
  · rw [checkMembers, if_pos rfl]
    simp

/-- Claim C7: on a non-baseline pass with previous member set `P` and
current member set `C`, exactly one JOIN is emitted per id in `C \ P`,
exactly one LEAVE per id in `P \ C`, no other events, the snapshot becomes
`C` and the member count becomes `|C|`. -/
theorem C7_member_diff (previousMembers currentMembers : List String) (memberCount : Nat)
    (hp : previousMembers.Nodup) (hc : currentMembers.Nodup) (m : String) :
    ((checkMembers true false previousMembers currentMembers memberCount).joinedIds.count m
        = if m ∈ currentMembers ∧ m ∉ previousMembers then 1 else 0) ∧
    ((checkMembers true false previousMembers currentMembers memberCount).leftIds.count m
        = if m ∈ previousMembers ∧ m ∉ currentMembers then 1 else 0) ∧
    (checkMembers true false previousMembers currentMembers memberCount).newMemberCount
        = currentMembers.length ∧
    (checkMembers true false previousMembers currentMembers memberCount).newSnapshot
        = currentMembers := by
  refine ⟨?_, ?_, rfl, rfl⟩
  · rw [checkMembers, if_pos rfl]
    simp only
    by_cases h : m ∈ currentMembers ∧ m ∉ previousMembers
    · rw [if_pos h]
      apply List.count_eq_one_of_mem (hc.filter _)
      rw [List.mem_filter]
      refine ⟨h.1, ?_⟩
      simp only [Bool.not_false, Bool.and_true, Bool.not_eq_true']
      rw [← Bool.not_eq_true, list_contains_iff]
      exact h.2
    · rw [if_neg h]
      apply List.count_eq_zero_of_not_mem
      rw [List.mem_filter]
      rintro ⟨h1, h2⟩
      simp only [Bool.not_false, Bool.and_true, Bool.not_eq_true'] at h2
      apply h
      refine ⟨h1, ?_⟩
      rw [← list_contains_iff, h2]
      exact Bool.false_ne_true
  · rw [checkMembers, if_pos rfl]
    simp only
    by_cases h : m ∈ previousMembers ∧ m ∉ currentMembers
    · rw [if_pos h]
      apply List.count_eq_one_of_mem (hp.filter _)
      rw [List.mem_filter]
      refine ⟨h.1, ?_⟩
      simp only [Bool.not_false, Bool.and_true, Bool.not_eq_true']
      rw [← Bool.not_eq_true, list_contains_iff]
      exact h.2
    · rw [if_neg h]
      apply List.count_eq_zero_of_not_mem
      rw [List.mem_filter]
      rintro ⟨h1, h2⟩
      simp only [Bool.not_false, Bool.and_true, Bool.not_eq_true'] at h2
      apply h
      refine ⟨h1, ?_⟩
      rw [← list_contains_iff, h2]
      exact Bool.false_ne_true

/-- Witness for `C7_member_diff`: previous members `{A,B,C}`, observed
members `{A,C,D}` — exactly one LEAVE for `B`, exactly one JOIN for `D`,
member count 3. -/
theorem C7_member_diff_witness :
    ((checkMembers true false ["A", "B", "C"] ["A", "C", "D"] 3).joinedIds.count "D"
        = if ("D" ∈ (["A", "C", "D"] : List String) ∧ "D" ∉ (["A", "B", "C"] : List String))
          then 1 else 0) ∧
    ((checkMembers true false ["A", "B", "C"] ["A", "C", "D"] 3).leftIds.count "B"
        = if ("B" ∈ (["A", "B", "C"] : List String) ∧ "B" ∉ (["A", "C", "D"] : List String))
          then 1 else 0) ∧
    (checkMembers true false ["A", "B", "C"] ["A", "C", "D"] 3).newMemberCount
        = (["A", "C", "D"] : List String).length := by
  refine ⟨?_, ?_, ?_⟩
  · exact (C7_member_diff ["A", "B", "C"] ["A", "C", "D"] 3
      (by decide) (by decide) "D").1
  · exact (C7_member_diff ["A", "B", "C"] ["A", "C", "D"] 3
      (by decide) (by decide) "B").2.1
  · exact (C7_member_diff ["A", "B", "C"] ["A", "C", "D"] 3
      (by decide) (by decide) "B").2.2.1

/-! ### Message diff (message section of `checkMessages`)

The pass fetches the most recent `MESSAGE_LIMIT` messages, classifies each
as new iff its id is absent from `previousMessageIds` (adding the id when
absent), persists all fetched messages only when at least one was new or
the pass is the group's first, broadcasts the new ones on non-first
passes, and finally trims `previousMessageIds` to its last 100 entries
when it exceeds 100. `processMessage` never throws (its body is wrapped in
try/catch); it is modelled as the identity on fetched messages. -/

/-- A fetched message (the fields the diff logic and persistence read). -/
structure FetchedMsg where
  id : String
  body : String
  timestamp : String
deriving DecidableEq, Repr

/-- One step of the new-message classification loop: skip ids already in
the window, otherwise record the message as new and append its id. -/
def classifyStep (acc : List FetchedMsg × List String) (msg : FetchedMsg) :
    List FetchedMsg × List String :=
  if acc.2.contains msg.id then acc
  else (acc.1 ++ [msg], acc.2 ++ [msg.id])

/-- The `newMessages` list produced by the classification loop. -/
def newMessagesOf (window : List String) (fetched : List FetchedMsg) : List FetchedMsg :=
  (fetched.foldl classifyStep ([], window)).1

/-- The id window after the classification loop (before trimming). -/
def windowAfterIds (window : List String) (fetched : List FetchedMsg) : List String :=
  (fetched.foldl classifyStep ([], window)).2

/-- Outcome of the message section of one pass. -/
structure MsgPassResult where
  newMessages : List FetchedMsg
  persisted : List FetchedMsg
  broadcasted : List FetchedMsg
  window : List String
  isFirstRunAfter : Bool
deriving DecidableEq, Repr

/-- The message section of `checkMessages`: classification, the guarded
persistence block, the guarded broadcast block, and the window trim
`if (previousMessageIds.size > 100) keep the last 100`. -/
def msgPass (window : List String) (isFirstRun : Bool) (fetched : List FetchedMsg) :
    MsgPassResult :=
  { newMessages := newMessagesOf window fetched
  , persisted :=
      if (newMessagesOf window fetched).length > 0 || isFirstRun then fetched else []
  , broadcasted :=
      if (newMessagesOf window fetched).length > 0 || isFirstRun then
        (if isFirstRun then [] else newMessagesOf window fetched)
      else []
  , window :=
      if (windowAfterIds window fetched).length > 100 then
        (windowAfterIds window fetched).drop ((windowAfterIds window fetched).length - 100)
      else windowAfterIds window fetched
  , isFirstRunAfter :=
      if (newMessagesOf window fetched).length > 0 || isFirstRun then false else isFirstRun }

theorem classify_fst_len_mono (fetched : List FetchedMsg) :
    ∀ acc : List FetchedMsg × List String,
      acc.1.length ≤ (fetched.foldl classifyStep acc).1.length := by
  induction fetched with
  | nil => intro acc; exact le_refl _
  | cons m rest ih =>
    intro acc
    rw [List.foldl_cons]
    refine le_trans ?_ (ih (classifyStep acc m))
    rw [classifyStep]
    split
    · exact le_refl _
    · simp

theorem classify_fst_eq_iff (fetched : List FetchedMsg) :
    ∀ acc : List FetchedMsg × List String,
      (fetched.foldl classifyStep acc).1 = acc.1 ↔ ∀ msg ∈ fetched, msg.id ∈ acc.2 := by
  induction fetched with
  | nil => intro acc; simp
  | cons m rest ih =>
    intro acc
    rw [List.foldl_cons, classifyStep]
    by_cases hc : acc.2.contains m.id = true
    · rw [if_pos hc, ih acc]
      constructor
      · intro h msg hmsg
        rcases List.mem_cons.mp hmsg with rfl | hm
        · exact (list_contains_iff _ _).mp hc
        · exact h msg hm
      · intro h msg hmsg
        exact h msg (List.mem_cons_of_mem m hmsg)
    · rw [if_neg hc]
      constructor
      · intro h
        exfalso
        have hlen := classify_fst_len_mono rest (acc.1 ++ [m], acc.2 ++ [m.id])
        rw [h] at hlen
        simp at hlen
      · intro h
        exfalso
        apply hc
        rw [list_contains_iff]
        exact h m (List.mem_cons_self m rest)

theorem classify_mem_iff (fetched : List FetchedMsg) :
    ∀ acc : List FetchedMsg × List String,
      (fetched.map (fun m => m.id)).Nodup →
      ∀ msg, msg ∈ (fetched.foldl classifyStep acc).1 ↔
        msg ∈ acc.1 ∨ (msg ∈ fetched ∧ msg.id ∉ acc.2) := by
  induction fetched with
  | nil => intro acc _ msg; simp
  | cons m rest ih =>
    intro acc hnd msg
    rw [List.map_cons, List.nodup_cons] at hnd
    rw [List.foldl_cons, classifyStep]
    by_cases hc : acc.2.contains m.id = true
    · rw [if_pos hc, ih acc hnd.2 msg]
      have hmid : m.id ∈ acc.2 := (list_contains_iff _ _).mp hc
      constructor
      · rintro (h | ⟨h1, h2⟩)
        · exact Or.inl h
        · exact Or.inr ⟨List.mem_cons_of_mem m h1, h2⟩
      · rintro (h | ⟨h1, h2⟩)
        · exact Or.inl h
        · rcases List.mem_cons.mp h1 with rfl | h1
          · exact absurd hmid h2
          · exact Or.inr ⟨h1, h2⟩
    · rw [if_neg hc, ih _ hnd.2 msg]
      have hmid : m.id ∉ acc.2 := fun hin => hc ((list_contains_iff _ _).mpr hin)
      constructor
      · rintro (h | ⟨h1, h2⟩)
        · rcases List.mem_append.mp h with h | h
          · exact Or.inl h
          · rw [List.mem_singleton.mp h]
            exact Or.inr ⟨List.mem_cons_self _ _, hmid⟩
        · exact Or.inr ⟨List.mem_cons_of_mem m h1,
            fun hin => h2 (List.mem_append.mpr (Or.inl hin))⟩
      · rintro (h | ⟨h1, h2⟩)
        · exact Or.inl (List.mem_append.mpr (Or.inl h))
        · rcases List.mem_cons.mp h1 with rfl | h1
          · exact Or.inl (List.mem_append.mpr (Or.inr (List.mem_singleton.mpr rfl)))
          · refine Or.inr ⟨h1, ?_⟩
            intro hin
            rcases List.mem_append.mp hin with hin | hin
            · exact h2 hin
            · have hmeq : msg.id = m.id := List.mem_singleton.mp hin
              apply hnd.1
              rw [← hmeq]
              exact List.mem_map.mpr ⟨msg, h1, rfl⟩

theorem classify_snd_eq (fetched : List FetchedMsg) :
    ∀ acc : List FetchedMsg × List String,
      (fetched.map (fun m => m.id)).Nodup →
      (∀ m ∈ fetched, m.id ∉ acc.2) →
      (fetched.foldl classifyStep acc).2 = acc.2 ++ fetched.map (fun m => m.id) := by
  induction fetched with
  | nil => intro acc _ _; simp
  | cons m rest ih =>
    intro acc hnd hfr
    rw [List.map_cons, List.nodup_cons] at hnd
    rw [List.foldl_cons, classifyStep]
    have hc : ¬ acc.2.contains m.id = true := fun hcon =>
      hfr m (List.mem_cons_self m rest) ((list_contains_iff _ _).mp hcon)
    rw [if_neg hc]
    rw [ih (acc.1 ++ [m], acc.2 ++ [m.id]) hnd.2 ?side]
    case side =>
      intro m2 hm2 hin
      rcases List.mem_append.mp hin with hin | hin
      · exact hfr m2 (List.mem_cons_of_mem m hm2) hin
      · have heq : m2.id = m.id := List.mem_singleton.mp hin
        apply hnd.1
        rw [← heq]
        exact List.mem_map.mpr ⟨m2, hm2, rfl⟩
    simp [List.append_assoc]

/-- The last `n` entries of a list (what `Array.from(set).slice(-100)`
keeps). -/
def takeLast (n : Nat) (l : List String) : List String :=
  l.drop (l.length - n)

theorem takeLast_of_le (n : Nat) (l : List String) (h : l.length ≤ n) :
    takeLast n l = l := by
  rw [takeLast, Nat.sub_eq_zero_of_le h, List.drop_zero]

theorem length_takeLast (n : Nat) (l : List String) :
    (takeLast n l).length = l.length - (l.length - n) := by
  rw [takeLast, List.length_drop]

theorem takeLast_prepend (n : Nat) (front z : List String) (hz : n ≤ z.length) :
    takeLast n (front ++ z) = takeLast n z := by
  rw [takeLast, takeLast, List.length_append]
  have harith : front.length + z.length - n = front.length + (z.length - n) := by omega
  rw [harith, ← List.drop_drop, List.drop_left]

theorem takeLast_append_takeLast (n : Nat) (xs ys : List String) :
    takeLast n (takeLast n xs ++ ys) = takeLast n (xs ++ ys) := by
  by_cases h : xs.length ≤ n
  · rw [takeLast_of_le n xs h]
  · have hlen : (takeLast n xs).length = n := by
      rw [length_takeLast]
      omega
    have hsplit : xs = xs.take (xs.length - n) ++ takeLast n xs := by
      rw [takeLast, List.take_append_drop]
    have hz : n ≤ (takeLast n xs ++ ys).length := by
      rw [List.length_append, hlen]
      omega
    calc takeLast n (takeLast n xs ++ ys)
        = takeLast n (xs.take (xs.length - n) ++ (takeLast n xs ++ ys)) :=
          (takeLast_prepend n _ _ hz).symm
      _ = takeLast n (xs ++ ys) := by rw [← List.append_assoc, ← hsplit]

/-- The trimmed window of a pass is exactly the last 100 entries of the
post-classification window. -/
theorem msgPass_window_eq (window : List String) (isFirstRun : Bool)
    (fetched : List FetchedMsg) :
    (msgPass window isFirstRun fetched).window = takeLast 100 (windowAfterIds window fetched) := by
  rw [msgPass]
  by_cases h : (windowAfterIds window fetched).length > 100
  · simp only [if_pos h]
    rw [takeLast]
  · simp only [if_neg h]
    rw [takeLast_of_le]
    omega

/-- The window state after a sequence of scheduled passes, starting from
the empty window a freshly added group gets (`previousMessageIds: new
Set()`); each pass observes one fetched slice. -/
def runPasses (window : List String) (passes : List (List FetchedMsg)) : List String :=
  passes.foldl (fun w fetched => (msgPass w false fetched).window) window

theorem runPasses_eq (passes : List (List FetchedMsg)) :
    ∀ prevIds : List String,
      (prevIds ++ (passes.map (fun p => p.map (fun m => m.id))).flatten).Nodup →
      runPasses (takeLast 100 prevIds) passes =
        takeLast 100 (prevIds ++ (passes.map (fun p => p.map (fun m => m.id))).flatten) := by
  induction passes with
  | nil =>
    intro prevIds _
    rw [runPasses, List.foldl_nil, List.map_nil, List.flatten_nil, List.append_nil]
  | cons p rest ih =>
    intro prevIds hnd
    rw [List.map_cons, List.flatten_cons] at hnd ⊢
    rw [runPasses, List.foldl_cons]
    have hnd2 : ((prevIds ++ p.map (fun m => m.id)) ++
        (rest.map (fun p => p.map (fun m => m.id))).flatten).Nodup := by
      rw [List.append_assoc]
      exact hnd
    have hpieces := List.nodup_append.mp hnd
    have hpnd : (p.map (fun m => m.id)).Nodup :=
      (List.nodup_append.mp (List.nodup_append.mp hnd2).1).2.1
    have hdisj : ∀ m ∈ p, m.id ∉ prevIds := by
      intro m hm hin
      have hjoin : m.id ∈ p.map (fun m => m.id) ++
          (rest.map (fun p => p.map (fun m => m.id))).flatten :=
        List.mem_append.mpr (Or.inl (List.mem_map.mpr ⟨m, hm, rfl⟩))
      exact hpieces.2.2 hin hjoin
    have hfresh : ∀ m ∈ p, m.id ∉ takeLast 100 prevIds := by
      intro m hm hin
      exact hdisj m hm (List.drop_subset _ _ hin)
    have hwin : (msgPass (takeLast 100 prevIds) false p).window =
        takeLast 100 (prevIds ++ p.map (fun m => m.id)) := by
      rw [msgPass_window_eq, windowAfterIds,
        classify_snd_eq p ([], takeLast 100 prevIds) hpnd hfresh]
      have h2 := takeLast_append_takeLast 100 prevIds (p.map (fun m => m.id))
      exact h2
    rw [hwin, ← runPasses]
    rw [ih (prevIds ++ p.map (fun m => m.id)) hnd2]
    rw [List.append_assoc]

/-- A fetched message with an id already in the example window. -/
def seenMsg : FetchedMsg := ⟨"m1", "hello again", "2024-01-02T10:00:00.000Z"⟩

/-- Claim C5 counterexample: on a non-first pass whose fetched slice
contains no id absent from the Recent-ID Window, *nothing* is persisted —
the fetched messages are not re-upserted, refuting "persistence of the
fetched slice is not conditional on any of the fetched messages being
classified as new". -/
theorem C5_counterexample :
    (msgPass ["m1"] false [seenMsg]).persisted = [] ∧
    ([seenMsg] : List FetchedMsg) ≠ [] := by
  constructor
  · decide
  · decide

/-- Claim C5 (amended): all fetched messages — including ones whose ids
are already in the Recent-ID Window — are persisted whenever the pass is
the group's first or at least one fetched message is classified as new;
but when a non-first pass classifies no fetched message as new, none of
the fetched messages are persisted (the persistence block is guarded by
`newMessages.length > 0 || isFirstRun`). -/
theorem C5_persist_guarded (window : List String) (isFirstRun : Bool)
    (fetched : List FetchedMsg) :
    ((isFirstRun = true ∨ ∃ msg ∈ fetched, msg.id ∉ window) →
      (msgPass window isFirstRun fetched).persisted = fetched) ∧
    (isFirstRun = false → (∀ msg ∈ fetched, msg.id ∈ window) →
      (msgPass window isFirstRun fetched).persisted = []) := by
  constructor
  · rintro (hfirst | ⟨msg, hmem, hout⟩)
    · rw [msgPass]
      simp [hfirst]
    · have hne : newMessagesOf window fetched ≠ [] := by
        rw [newMessagesOf]
        intro hcon
        have := (classify_fst_eq_iff fetched ([], window)).mp hcon
        exact hout (this msg hmem)
      have hlen : (newMessagesOf window fetched).length > 0 :=
        List.length_pos.mpr hne
      rw [msgPass]
      simp [hlen]
  · intro hfirst hall
    have hnil : newMessagesOf window fetched = [] := by
      rw [newMessagesOf]
      exact (classify_fst_eq_iff fetched ([], window)).mpr hall
    rw [msgPass]
    simp [hnil, hfirst]

/-- A fetched message with a fresh id. -/
def freshMsg : FetchedMsg := ⟨"m2", "hello", "2024-01-02T11:00:00.000Z"⟩

/-- Witness for `C5_persist_guarded`: a non-first pass with one fresh and
one already-seen message persists the whole fetched slice, and a non-first
pass with only the seen message persists nothing. -/
theorem C5_persist_guarded_witness :
    (msgPass ["m1"] false [seenMsg, freshMsg]).persisted = [seenMsg, freshMsg] ∧
    (msgPass ["m1"] false [seenMsg]).persisted = [] := by
  constructor
  · exact (C5_persist_guarded ["m1"] false [seenMsg, freshMsg]).1
      (Or.inr ⟨freshMsg, by decide, by decide⟩)
  · exact (C5_persist_guarded ["m1"] false [seenMsg]).2 rfl (by decide)

/-- Claim C9: (i) at the end of every completed pass the Recent-ID Window
holds at most 100 ids; (ii) a fetched message is classified as new iff its
id is absent from the window at classification time (stated for fetched
slices with pairwise-distinct ids, for which classification time and pass
start coincide); (iii) across any sequence of passes observing pairwise
distinct ids, the window ends as exactly the suffix of the 100 most
recently observed ids, in observation order, oldest evicted first. -/
theorem C9_recent_id_window :
    (∀ (window : List String) (isFirstRun : Bool) (fetched : List FetchedMsg),
      (msgPass window isFirstRun fetched).window.length ≤ 100) ∧
    (∀ (window : List String) (isFirstRun : Bool) (fetched : List FetchedMsg),
      (fetched.map (fun m => m.id)).Nodup →
      ∀ msg, msg ∈ (msgPass window isFirstRun fetched).newMessages ↔
        msg ∈ fetched ∧ msg.id ∉ window) ∧
    (∀ passes : List (List FetchedMsg),
      ((passes.map (fun p => p.map (fun m => m.id))).flatten).Nodup →
      runPasses [] passes =
        takeLast 100 ((passes.map (fun p => p.map (fun m => m.id))).flatten)) := by
  refine ⟨?_, ?_, ?_⟩
  · intro window isFirstRun fetched
    rw [msgPass_window_eq, length_takeLast]
    omega
  · intro window isFirstRun fetched hnd msg
    have h := classify_mem_iff fetched ([], window) hnd msg
    rw [msgPass]
    simp only [newMessagesOf]
    rw [h]
    simp
  · intro passes hnd
    have h0 : takeLast 100 ([] : List String) = [] := rfl
    have := runPasses_eq passes [] (by simpa using hnd)
    rw [h0] at this
    rw [this]
    simp

/-- Witness for `C9_recent_id_window`: two passes over distinct ids leave
the window holding both ids in observation order. -/
theorem C9_recent_id_window_witness :
    runPasses [] [[⟨"a1", "x", "t1"⟩], [⟨"a2", "y", "t2"⟩]] =
      takeLast 100 (([[(⟨"a1", "x", "t1"⟩ : FetchedMsg)],
        [⟨"a2", "y", "t2"⟩]].map (fun p => p.map (fun m => m.id))).flatten) := by
  exact C9_recent_id_window.2.2 [[⟨"a1", "x", "t1"⟩], [⟨"a2", "y", "t2"⟩]] (by decide)

/-! ### AddGroup (`POST /api/groups`)

The handler trims the requested name, rejects when the client is not
ready, returns 409 when some already-monitored group's name is
case-insensitively *equal* to the trimmed name, then resolves the group as
the first chat whose display name case-insensitively *contains* the
trimmed name, and on success stores the group info and monitoring state
(resetting `isFirstRun` to true) keyed by the group id. JavaScript
`String.prototype.toLowerCase`, `trim` and `includes` are modelled
character-wise. -/

/-- Character-wise lower-casing (models `toLowerCase()`). -/
def lowerStr (s : String) : String := ⟨s.data.map Char.toLower⟩

/-- Whitespace trimming on both ends (models `trim()`). -/
def trimStr (s : String) : String :=
  ⟨((s.data.dropWhile Char.isWhitespace).reverse.dropWhile Char.isWhitespace).reverse⟩

def isPrefOf : List Char → List Char → Bool
  | [], _ => true
  | _ :: _, [] => false
  | a :: as, b :: bs => a == b && isPrefOf as bs

def isSubOf (needle : List Char) : List Char → Bool
  | [] => isPrefOf needle []
  | b :: bs => isPrefOf needle (b :: bs) || isSubOf needle bs

/-- Substring containment (models `hay.includes(needle)`). -/
def strIncludes (hay needle : String) : Bool := isSubOf needle.data hay.data

/-- A chat as returned by the collaborator's chat listing. -/
structure Chat where
  id : String
  name : String
  isGroup : Bool
  participants : List String
deriving DecidableEq, Repr

/-- An entry of `groupInfoStore` (groupId -> {id, name, memberCount}). -/
structure GroupInfo where
  id : String
  name : String
  memberCount : Nat
deriving DecidableEq, Repr

/-- An entry of `monitoredGroups`. -/
structure MonGroup where
  name : String
  id : String
  previousMessageIds : List String
  previousMembers : List String
  isFirstRun : Bool
deriving DecidableEq, Repr

/-- The two in-memory registries the handler mutates. -/
structure ServerState where
  groupInfoStore : List GroupInfo
  monitoredGroups : List MonGroup
deriving DecidableEq, Repr

/-- `Map.set` semantics on `groupInfoStore` (keyed by group id). -/
def setGroupInfo (l : List GroupInfo) (g : GroupInfo) : List GroupInfo :=
  if l.any (fun x => x.id == g.id) then l.map (fun x => if x.id == g.id then g else x)
  else l ++ [g]

/-- `Map.set` semantics on `monitoredGroups` (keyed by group id). -/
def setMonGroup (l : List MonGroup) (g : MonGroup) : List MonGroup :=
  if l.any (fun x => x.id == g.id) then l.map (fun x => if x.id == g.id then g else x)
  else l ++ [g]

/-- The handler's observable outcome. -/
inductive AddGroupOutcome where
  | badRequest
  | notReady
  | alreadyMonitored
  | notFound
  | ok (g : GroupInfo)
deriving DecidableEq, Repr

/-- The `POST /api/groups` handler. -/
def addGroup (st : ServerState) (isClientReady : Bool) (chats : List Chat)
    (name : String) : AddGroupOutcome × ServerState :=
  if trimStr name = "" then (.badRequest, st)
  else if !isClientReady then (.notReady, st)
  else
    match st.groupInfoStore.find? (fun g => lowerStr g.name == lowerStr (trimStr name)) with
    | some _ => (.alreadyMonitored, st)
    | none =>
      match chats.find? (fun chat =>
          chat.isGroup && !(chat.name == "") &&
          strIncludes (lowerStr chat.name) (lowerStr (trimStr name))) with
      | none => (.notFound, st)
      | some group =>
        (.ok ⟨group.id, group.name, group.participants.length⟩,
          { groupInfoStore := setGroupInfo st.groupInfoStore
              ⟨group.id, group.name, group.participants.length⟩
          , monitoredGroups := setMonGroup st.monitoredGroups
              ⟨group.name, group.id, [], group.participants, true⟩ })

/-- The WhatsApp group named "Cairo Team". -/
def cairoChat : Chat := ⟨"g100", "Cairo Team", true, ["p1", "p2"]⟩

/-- Claim C3 counterexample: `AddGroup("cairo")` resolves and monitors
"Cairo Team"; calling `AddGroup("cairo")` again *succeeds again* (the
already-monitored check compares lower-cased names for equality, and
"cairo team" is not equal to "cairo"), refuting "a second
AddGroup(\x22cairo\x22) call returns AlreadyMonitored". -/
theorem C3_counterexample :
    (addGroup ⟨[], []⟩ true [cairoChat] "cairo").1
        = AddGroupOutcome.ok ⟨"g100", "Cairo Team", 2⟩ ∧
    (addGroup (addGroup ⟨[], []⟩ true [cairoChat] "cairo").2 true [cairoChat] "cairo").1
        = AddGroupOutcome.ok ⟨"g100", "Cairo Team", 2⟩ ∧
    (addGroup (addGroup ⟨[], []⟩ true [cairoChat] "cairo").2 true [cairoChat] "cairo").1
        ≠ AddGroupOutcome.alreadyMonitored := by
  refine ⟨?_, ?_, ?_⟩
  · decide
  · decide
  · decide

/-- Claim C3 (amended): `AddGroup(name)` fails with AlreadyMonitored iff
the client is ready, the trimmed name is nonempty, and some
already-monitored group's name is case-insensitively *equal* to the
trimmed name. The substring rule is used only for resolution, so after
`AddGroup("cairo")` has started monitoring "Cairo Team", a second
`AddGroup("cairo")` succeeds again (re-adding the group and resetting its
baseline flag) instead of returning AlreadyMonitored; repeating with the
exact stored name does return AlreadyMonitored. -/
theorem C3_already_monitored_iff (st : ServerState) (isClientReady : Bool)
    (chats : List Chat) (name : String) :
    (addGroup st isClientReady chats name).1 = AddGroupOutcome.alreadyMonitored ↔
      (trimStr name ≠ "" ∧ isClientReady = true ∧
        ∃ g ∈ st.groupInfoStore, lowerStr g.name = lowerStr (trimStr name)) := by
  by_cases h1 : trimStr name = ""
  · rw [addGroup, if_pos h1]
    simp [h1]
  · rw [addGroup, if_neg h1]
    cases isClientReady with
    | false => simp
    | true =>
      simp only [Bool.not_true, Bool.false_eq_true, if_false]
      cases hf : st.groupInfoStore.find?
          (fun g => lowerStr g.name == lowerStr (trimStr name)) with
      | some g =>
        simp only [hf]
        constructor
        · intro _
          refine ⟨h1, by trivial, g, List.mem_of_find?_eq_some hf, ?_⟩
          have hpg := List.find?_some hf
          rwa [beq_iff_eq] at hpg
        · intro _
          trivial
      | none =>
        have hno : ∀ g ∈ st.groupInfoStore, ¬ lowerStr g.name = lowerStr (trimStr name) := by
          intro g hg
          have hng := List.find?_eq_none.mp hf g hg
          rwa [beq_iff_eq] at hng
        simp only [hf]
        cases hg : chats.find? (fun chat =>
            chat.isGroup && !(chat.name == "") &&
            strIncludes (lowerStr chat.name) (lowerStr (trimStr name))) with
        | none =>
          simp only [hg]
          constructor
          · intro hcon
            exact absurd hcon (by simp)
          · rintro ⟨-, -, g, hmem, heq⟩
            exact absurd heq (hno g hmem)
        | some group =>
          simp only [hg]
          constructor
          · intro hcon
            exact absurd hcon (by simp)
          · rintro ⟨-, -, g, hmem, heq⟩
            exact absurd heq (hno g hmem)

/-! ### Search (`GET /api/search`)

`SELECT ... FROM messages WHERE [group_id = ? AND] (message LIKE ? OR
sender LIKE ?) ORDER BY timestamp DESC LIMIT ?` with pattern `%q%`,
responding with `results`, `total: rows.length` and
`hasMore: rows.length === limit`. SQLite `LIKE` is ASCII
case-insensitive; `ORDER BY ... DESC` on a TEXT column is modelled by
sorting on the lexicographic string order. -/

/-- The WHERE clause of the search query. -/
def matchesSearch (q : String) (groupId : Option String) (r : MessageRow) : Bool :=
  (match groupId with
   | some gid => r.groupId == gid
   | none => true) &&
  (strIncludes (lowerStr r.message) (lowerStr q) ||
    strIncludes (lowerStr r.sender) (lowerStr q))

/-- Row order produced by `ORDER BY timestamp DESC`. -/
def tsDesc (a b : MessageRow) : Prop := b.timestamp ≤ a.timestamp

instance : DecidableRel tsDesc := fun a b =>
  inferInstanceAs (Decidable (b.timestamp ≤ a.timestamp))

instance : IsTotal MessageRow tsDesc :=
  ⟨fun a b => le_total b.timestamp a.timestamp⟩

instance : IsTrans MessageRow tsDesc :=
  ⟨fun _ _ _ hab hbc => le_trans hbc hab⟩

/-- The rows the search query returns (filter, sort descending, limit). -/
def searchRows (store : List MessageRow) (q : String) (groupId : Option String)
    (limit : Nat) : List MessageRow :=
  (((store.filter (matchesSearch q groupId)).insertionSort tsDesc).take limit)

/-- The search response body. -/
structure SearchResult where
  results : List MessageRow
  total : Nat
  hasMore : Bool
deriving DecidableEq, Repr

/-- The handler outcome (`400` when `q` is missing/empty). -/
inductive SearchOutcome where
  | badRequest
  | ok (r : SearchResult)
deriving DecidableEq, Repr

/-- The `GET /api/search` handler. -/
def searchMessages (store : List MessageRow) (q : String) (groupId : Option String)
    (limit : Nat) : SearchOutcome :=
  if q = "" then .badRequest
  else .ok ⟨searchRows store q groupId limit,
            (searchRows store q groupId limit).length,
            (searchRows store q groupId limit).length == limit⟩

/-- Claim C10: search returns at most `limit` matching rows sorted by
timestamp descending, and reports `hasMore = true` exactly when the
number of returned rows equals `limit`; in particular when the total
number of matching rows is exactly `limit`, `hasMore` is still true even
though no further results exist. -/
theorem C10_search (store : List MessageRow) (q : String) (groupId : Option String)
    (limit : Nat) (hq : q ≠ "") :
    ∃ res : SearchResult, searchMessages store q groupId limit = SearchOutcome.ok res ∧
      res.results.length ≤ limit ∧
      res.results.Pairwise tsDesc ∧
      (res.hasMore = true ↔ res.results.length = limit) ∧
      ((store.filter (matchesSearch q groupId)).length = limit → res.hasMore = true) := by
  refine ⟨⟨searchRows store q groupId limit,
      (searchRows store q groupId limit).length,
      (searchRows store q groupId limit).length == limit⟩, ?_, ?_, ?_, ?_, ?_⟩
  · rw [searchMessages, if_neg hq]
  · exact List.length_take_le limit _
  · have hs : List.Sorted tsDesc
        ((store.filter (matchesSearch q groupId)).insertionSort tsDesc) :=
      List.sorted_insertionSort tsDesc _
    exact List.Pairwise.sublist (List.take_sublist limit _) hs
  · exact beq_iff_eq
  · intro htot
    have hperm := List.perm_insertionSort tsDesc (store.filter (matchesSearch q groupId))
    have hlen : ((store.filter (matchesSearch q groupId)).insertionSort tsDesc).length
        = limit := by
      rw [hperm.length_eq, htot]
    show ((searchRows store q groupId limit).length == limit) = true
    rw [beq_iff_eq, searchRows, List.length_take, hlen, Nat.min_self]

/-- A stored message matching the query "hello". -/
def helloRow : MessageRow :=
  ⟨"w1", "g1", "Group One", "Member One (20123456789)", "20123456789@c.us",
    "hello world", "2024-01-01T10:00:00.000Z"⟩

/-- Witness for `C10_search`: a store with exactly one matching row and
`limit = 1` yields one result and `hasMore = true` despite no further
matches existing. -/
theorem C10_search_witness :
    ∃ res : SearchResult, searchMessages [helloRow] "hello" none 1 = SearchOutcome.ok res ∧
      res.results.length ≤ 1 ∧
      res.results.Pairwise tsDesc ∧
      (res.hasMore = true ↔ res.results.length = 1) ∧
      (([helloRow].filter (matchesSearch "hello" none)).length = 1 → res.hasMore = true) :=
  C10_search [helloRow] "hello" none 1 (by decide)

/-! ### One whole pass (`checkMessages`) with failure points

`checkMessages` wraps its body in try/catch, so a pass never throws into
`checkAllGroups`. The collaborator calls that can throw inside the try are
`client.getChats()` (before anything is mutated) and
`group.fetchMessages(...)` (after the member section has already replaced
`previousMembers` and `memberCount`). `createEvent` and `processMessage`
catch their own errors internally and never abort the pass. -/

/-- Outcome of the `client.getChats()` call and group lookup. -/
inductive ChatsOutcome where
  | fail
  | notFoundInChats
  | found (participants : Option (List String))
deriving DecidableEq, Repr

/-- Outcome of the `group.fetchMessages(...)` call. -/
inductive FetchOutcome where
  | fail
  | ok (msgs : List FetchedMsg)
deriving DecidableEq, Repr

/-- The collaborator's behaviour during one pass for one group. -/
structure PassInput where
  chats : ChatsOutcome
  fetch : FetchOutcome
deriving DecidableEq, Repr

/-- Per-group cached state (`monitoredGroups` entry plus the
`groupInfoStore` member count). -/
structure SyncState where
  previousMessageIds : List String
  previousMembers : List String
  isFirstRun : Bool
  memberCount : Nat
deriving DecidableEq, Repr

/-- Observable outputs of one pass. -/
structure PassOutput where
  joinEvents : List String
  leaveEvents : List String
  newMessages : List FetchedMsg
  persisted : List FetchedMsg
  broadcasted : List FetchedMsg
deriving DecidableEq, Repr

/-- The output of an aborted or skipped pass. -/
def emptyOutput : PassOutput := ⟨[], [], [], [], []⟩

/-- The member section applied to the pass state (skipped when
`group.participants` is absent). -/
def memberPhase (detect : Bool) (st : SyncState) (participants : Option (List String)) :
    SyncState × MemberDiffResult :=
  match participants with
  | none => (st, ⟨[], [], st.previousMembers, st.memberCount⟩)
  | some current =>
    ({ st with
        previousMembers :=
          (checkMembers detect st.isFirstRun st.previousMembers current st.memberCount).newSnapshot
        , memberCount :=
          (checkMembers detect st.isFirstRun st.previousMembers current st.memberCount).newMemberCount },
      checkMembers detect st.isFirstRun st.previousMembers current st.memberCount)

/-- One whole `checkMessages` pass. A `getChats` failure or a missing
group aborts before any mutation; a `fetchMessages` failure aborts after
the member section (join/leave events already emitted and broadcast,
snapshot already replaced) but before any message handling, leaving the
Recent-ID Window and the first-run flag untouched. -/
def runPass (detect : Bool) (st : SyncState) (inp : PassInput) : SyncState × PassOutput :=
  match inp.chats with
  | .fail => (st, emptyOutput)
  | .notFoundInChats => (st, emptyOutput)
  | .found participants =>
    match inp.fetch with
    | .fail =>
      ((memberPhase detect st participants).1,
        ⟨(memberPhase detect st participants).2.joinedIds,
          (memberPhase detect st participants).2.leftIds, [], [], []⟩)
    | .ok msgs =>
      ({ (memberPhase detect st participants).1 with
          previousMessageIds :=
            (msgPass ((memberPhase detect st participants).1).previousMessageIds
              st.isFirstRun msgs).window
          , isFirstRun :=
            (msgPass ((memberPhase detect st participants).1).previousMessageIds
              st.isFirstRun msgs).isFirstRunAfter },
        ⟨(memberPhase detect st participants).2.joinedIds,
          (memberPhase detect st participants).2.leftIds,
          (msgPass ((memberPhase detect st participants).1).previousMessageIds
            st.isFirstRun msgs).newMessages,
          (msgPass ((memberPhase detect st participants).1).previousMessageIds
            st.isFirstRun msgs).persisted,
          (msgPass ((memberPhase detect st participants).1).previousMessageIds
            st.isFirstRun msgs).broadcasted⟩)

/-- One `checkAllGroups` tick: each monitored group's pass runs with its
own caches and collaborator behaviour; the per-pass try/catch makes every
pass total, so the loop always visits every group. -/
def tick (detect : Bool) (groups : List (SyncState × PassInput)) :
    List (SyncState × PassOutput) :=
  groups.map (fun gp => runPass detect gp.1 gp.2)

/-- Pre-pass state for the C8 counterexample: member snapshot `{A}`. -/
def stG : SyncState := ⟨["m1"], ["A"], false, 1⟩

/-- Collaborator behaviour: membership now `{A,B}`, then the message
fetch fails. -/
def inpG : PassInput := ⟨ChatsOutcome.found (some ["A", "B"]), FetchOutcome.fail⟩

/-- Claim C8 counterexample: a `fetchMessages` failure mid-pass does
*not* leave the member snapshot at its pre-pass value — the membership
section already replaced it (and emitted a JOIN for B) before the fetch
ran, refuting "leaving G's prior caches (member snapshot and Recent-ID
Window) unchanged from their pre-pass state". -/
theorem C8_counterexample :
    (runPass true stG inpG).1.previousMembers = ["A", "B"] ∧
    stG.previousMembers = ["A"] ∧
    (runPass true stG inpG).2.joinEvents = ["B"] := by
  refine ⟨?_, ?_, ?_⟩
  · decide
  · decide
  · decide

/-- Claim C8 (amended): a collaborator failure aborts only the current
pass for that group. A `getChats` failure (or a missing group) leaves all
of the group's caches unchanged and produces no output; a `fetchMessages`
failure leaves the Recent-ID Window and the first-run flag unchanged and
persists/broadcasts no messages, but the member snapshot and member count
have already been replaced by the membership section, which runs before
the fetch. Passes for other groups in the same tick are computed
independently from their own state and collaborator behaviour, so they
still complete and broadcast their own new messages. -/
theorem C8_failure_isolation :
    (∀ (detect : Bool) (st : SyncState) (inp : PassInput),
      inp.chats = ChatsOutcome.fail →
      (runPass detect st inp).1 = st ∧ (runPass detect st inp).2 = emptyOutput) ∧
    (∀ (detect : Bool) (st : SyncState) (inp : PassInput),
      inp.fetch = FetchOutcome.fail →
      (runPass detect st inp).1.previousMessageIds = st.previousMessageIds ∧
      (runPass detect st inp).1.isFirstRun = st.isFirstRun ∧
      (runPass detect st inp).2.persisted = [] ∧
      (runPass detect st inp).2.broadcasted = []) ∧
    (∀ (detect : Bool) (groups : List (SyncState × PassInput)) (i : Nat)
        (hi : i < groups.length) (hi2 : i < (tick detect groups).length),
      (tick detect groups).get ⟨i, hi2⟩ =
        runPass detect (groups.get ⟨i, hi⟩).1 (groups.get ⟨i, hi⟩).2) := by
  refine ⟨?_, ?_, ?_⟩
  · intro detect st inp hfail
    rw [runPass, hfail]
    exact ⟨rfl, rfl⟩
  · intro detect st inp hfail
    rw [runPass, hfail]
    cases hc : inp.chats with
    | fail => exact ⟨rfl, rfl, rfl, rfl⟩
    | notFoundInChats => exact ⟨rfl, rfl, rfl, rfl⟩
    | found participants =>
      refine ⟨?_, ?_, rfl, rfl⟩
      · cases participants with
        | none => rfl
        | some current => rfl
      · cases participants with
        | none => rfl
        | some current => rfl
  · intro detect groups i hi hi2
    simp [tick]

/-- A healthy second group's collaborator behaviour. -/
def inpH : PassInput := ⟨ChatsOutcome.found (some ["C"]), FetchOutcome.ok [freshMsg]⟩

/-- Witness for `C8_failure_isolation`: with group G failing at the fetch
and group H healthy in the same tick, G's window is untouched and H's
pass result is exactly its independent pass. -/
theorem C8_failure_isolation_witness :
    (runPass true stG inpG).1.previousMessageIds = stG.previousMessageIds ∧
    (tick true [(stG, inpG), (⟨[], ["C"], false, 1⟩, inpH)]).get ⟨1, by decide⟩ =
      runPass true (⟨[], ["C"], false, 1⟩ : SyncState) inpH := by
  constructor
  · exact (C8_failure_isolation.2.1 true stG inpG rfl).1
  · exact C8_failure_isolation.2.2 true [(stG, inpG), (⟨[], ["C"], false, 1⟩, inpH)] 1
      (by decide) (by decide)

/-! ### Poll scheduler (`setInterval(checkAllGroups, CHECK_INTERVAL)`)

`checkAllGroups` is an async function that awaits one `checkMessages`
pass per monitored group, sequentially; `setInterval` starts a *new*
invocation every interval regardless of whether the previous one has
finished, and no in-flight flag exists anywhere in the source.
Invocations interleave at `await` points on the single-threaded event
loop. Model: a task is one live `checkAllGroups` invocation — the groups
it still has to visit plus the pass it is currently executing, with the
number of remaining suspension points; a step either fires a tick
(spawning a task unconditionally, as the code does), starts a task's next
pass (with an arbitrary number of suspension points, standing for
collaborator latency), advances a pass across one await, or finishes a
pass. -/

/-- One live `checkAllGroups` invocation. -/
structure SchedTask where
  pending : List String
  running : Option (String × Nat)
deriving DecidableEq, Repr

/-- Scheduler state: the monitored-group registry and the live tasks. -/
structure SchedState where
  registry : List String
  tasks : List SchedTask
deriving DecidableEq, Repr

/-- Event-loop steps of the scheduler as written (tick is unguarded). -/
inductive SchedStep : SchedState → SchedState → Prop where
  | tick (s : SchedState) :
      SchedStep s ⟨s.registry, s.tasks ++ [⟨s.registry, none⟩]⟩
  | start (s : SchedState) (i : Nat) (g : String) (rest : List String) (d : Nat)
      (hi : i < s.tasks.length) (hg : s.tasks.get ⟨i, hi⟩ = ⟨g :: rest, none⟩) :
      SchedStep s ⟨s.registry, s.tasks.set i ⟨rest, some (g, d)⟩⟩
  | step (s : SchedState) (i : Nat) (p : List String) (g : String) (d : Nat)
      (hi : i < s.tasks.length) (hg : s.tasks.get ⟨i, hi⟩ = ⟨p, some (g, d + 1)⟩) :
      SchedStep s ⟨s.registry, s.tasks.set i ⟨p, some (g, d)⟩⟩
  | finish (s : SchedState) (i : Nat) (p : List String) (g : String)
      (hi : i < s.tasks.length) (hg : s.tasks.get ⟨i, hi⟩ = ⟨p, some (g, 0)⟩) :
      SchedStep s ⟨s.registry, s.tasks.set i ⟨p, none⟩⟩

/-- Whether a task is currently executing a pass for group `g`. -/
def runsGroup (g : String) (t : SchedTask) : Bool :=
  match t.running with
  | some gd => gd.1 == g
  | none => false

/-- How many passes for `g` are executing at the same time. -/
def executing (s : SchedState) (g : String) : Nat :=
  s.tasks.countP (runsGroup g)

/-- Claim C2 counterexample: starting from one monitored group `G` and no
live invocation, the unguarded scheduler reaches — by tick, start-pass,
tick (firing before the first pass finished), start-pass — a state in
which **two** passes for `G` are executing at the same time, refuting "at
most one observation pass for G is ever executing at the same time ...
the pass for G is skipped for that tick". -/
theorem C2_counterexample :
    Relation.ReflTransGen SchedStep ⟨["G"], []⟩
      ⟨["G"], [⟨[], some ("G", 1)⟩, ⟨[], some ("G", 1)⟩]⟩ ∧
    executing ⟨["G"], [⟨[], some ("G", 1)⟩, ⟨[], some ("G", 1)⟩]⟩ "G" = 2 := by
  constructor
  · have h1 : SchedStep ⟨["G"], []⟩ ⟨["G"], [⟨["G"], none⟩]⟩ :=
      SchedStep.tick ⟨["G"], []⟩
    have h2 : SchedStep ⟨["G"], [⟨["G"], none⟩]⟩ ⟨["G"], [⟨[], some ("G", 1)⟩]⟩ :=
      SchedStep.start ⟨["G"], [⟨["G"], none⟩]⟩ 0 "G" [] 1 (by decide) rfl
    have h3 : SchedStep ⟨["G"], [⟨[], some ("G", 1)⟩]⟩
        ⟨["G"], [⟨[], some ("G", 1)⟩, ⟨["G"], none⟩]⟩ :=
      SchedStep.tick ⟨["G"], [⟨[], some ("G", 1)⟩]⟩
    have h4 : SchedStep ⟨["G"], [⟨[], some ("G", 1)⟩, ⟨["G"], none⟩]⟩
        ⟨["G"], [⟨[], some ("G", 1)⟩, ⟨[], some ("G", 1)⟩]⟩ :=
      SchedStep.start ⟨["G"], [⟨[], some ("G", 1)⟩, ⟨["G"], none⟩]⟩ 1 "G" [] 1
        (by decide) rfl
    exact Relation.ReflTransGen.tail (Relation.ReflTransGen.tail
      (Relation.ReflTransGen.tail
        (Relation.ReflTransGen.tail Relation.ReflTransGen.refl h1) h2) h3) h4
  · decide

/-- The scheduler with ticks restricted to quiescent instants (every
earlier invocation fully drained) — what actually happens when every
`checkAllGroups` invocation finishes within one interval. -/
inductive SeqSchedStep : SchedState → SchedState → Prop where
  | tick (s : SchedState)
      (hq : ∀ t ∈ s.tasks, t.pending = [] ∧ t.running = none) :
      SeqSchedStep s ⟨s.registry, s.tasks ++ [⟨s.registry, none⟩]⟩
  | start (s : SchedState) (i : Nat) (g : String) (rest : List String) (d : Nat)
      (hi : i < s.tasks.length) (hg : s.tasks.get ⟨i, hi⟩ = ⟨g :: rest, none⟩) :
      SeqSchedStep s ⟨s.registry, s.tasks.set i ⟨rest, some (g, d)⟩⟩
  | step (s : SchedState) (i : Nat) (p : List String) (g : String) (d : Nat)
      (hi : i < s.tasks.length) (hg : s.tasks.get ⟨i, hi⟩ = ⟨p, some (g, d + 1)⟩) :
      SeqSchedStep s ⟨s.registry, s.tasks.set i ⟨p, some (g, d)⟩⟩
  | finish (s : SchedState) (i : Nat) (p : List String) (g : String)
      (hi : i < s.tasks.length) (hg : s.tasks.get ⟨i, hi⟩ = ⟨p, some (g, 0)⟩) :
      SeqSchedStep s ⟨s.registry, s.tasks.set i ⟨p, none⟩⟩

/-- A task that still has work (a pending group or a running pass). -/
def busyTask (t : SchedTask) : Bool := !(t.pending.isEmpty && t.running.isNone)

/-- The number of unfinished invocations. -/
def busyCount (s : SchedState) : Nat := s.tasks.countP busyTask

theorem countP_set_le {α : Type} (p : α → Bool) :
    ∀ (l : List α) (i : Nat) (v : α),
      (∀ hi : i < l.length, p (l.get ⟨i, hi⟩) = true) →
      (l.set i v).countP p ≤ l.countP p := by
  intro l
  induction l with
  | nil => intro i v _; exact le_refl _
  | cons x xs ih =>
    intro i v h
    cases i with
    | zero =>
      rw [List.set_cons_zero, List.countP_cons, List.countP_cons]
      have hx : p x = true := h (by simp)
      rw [hx]
      by_cases hv : p v = true
      · rw [hv]
      · rw [Bool.eq_false_iff.mpr hv]
        simp
    | succ j =>
      rw [List.set_cons_succ, List.countP_cons, List.countP_cons]
      have hj := ih j v (fun hj2 => h (Nat.succ_lt_succ hj2))
      omega

theorem seq_busy_le_one (s s2 : SchedState) (hstep : SeqSchedStep s s2)
    (hb : busyCount s ≤ 1) : busyCount s2 ≤ 1 := by
  cases hstep with
  | tick hq =>
    rw [busyCount]
    simp only [List.countP_append]
    have h0 : s.tasks.countP busyTask = 0 := by
      rw [List.countP_eq_zero]
      intro t ht
      have hd := hq t ht
      simp [busyTask, hd.1, hd.2]
    have h1 : ([(⟨s.registry, none⟩ : SchedTask)] : List SchedTask).countP busyTask ≤ 1 := by
      have := List.countP_le_length (p := busyTask)
        (l := [(⟨s.registry, none⟩ : SchedTask)])
      simpa using this
    rw [h0]
    omega
  | start i g rest d hi hg =>
    refine le_trans ?_ hb
    apply countP_set_le
    intro hi2
    have hg2 : s.tasks.get ⟨i, hi2⟩ = ⟨g :: rest, none⟩ := hg
    rw [hg2]
    simp [busyTask]
  | step i p g d hi hg =>
    refine le_trans ?_ hb
    apply countP_set_le
    intro hi2
    have hg2 : s.tasks.get ⟨i, hi2⟩ = ⟨p, some (g, d + 1)⟩ := hg
    rw [hg2]
    simp [busyTask]
  | finish i p g hi hg =>
    refine le_trans ?_ hb
    apply countP_set_le
    intro hi2
    have hg2 : s.tasks.get ⟨i, hi2⟩ = ⟨p, some (g, 0)⟩ := hg
    rw [hg2]
    simp [busyTask]

theorem seq_reachable_busy (reg : List String) (s : SchedState)
    (h : Relation.ReflTransGen SeqSchedStep ⟨reg, []⟩ s) : busyCount s ≤ 1 := by
  induction h with
  | refl => simp [busyCount]
  | tail hab hbc ih => exact seq_busy_le_one _ _ hbc ih

/-- Claim C2 (amended): the source has no per-group in-flight guard —
`setInterval` spawns a `checkAllGroups` invocation unconditionally, and
when a tick fires before the previous invocation has finished, two passes
for the same group can be executing at once (see the counterexample).
Within one invocation, passes run sequentially; consequently, whenever
every invocation drains before the next tick fires (ticks only at
quiescent instants), at most one pass — in particular at most one pass
per group — is executing at any time. -/
theorem C2_pass_overlap (reg : List String) (s : SchedState) (g : String)
    (h : Relation.ReflTransGen SeqSchedStep ⟨reg, []⟩ s) :
    executing s g ≤ 1 := by
  have hb := seq_reachable_busy reg s h
  refine le_trans ?_ hb
  rw [executing, busyCount]
  apply List.countP_mono_left
  intro t _ hr
  cases ht : t.running with
  | none =>
    rw [runsGroup, ht] at hr
    exact absurd hr (by simp)
  | some gd =>
    simp [busyTask, ht]

/-- Witness for `C2_pass_overlap`: the quiescent-tick scheduler reaches
the state with one running pass for `G`, and there at most one pass for
`G` executes. -/
theorem C2_pass_overlap_witness :
    executing ⟨["G"], [⟨[], some ("G", 5)⟩]⟩ "G" ≤ 1 := by
  apply C2_pass_overlap ["G"]
  have h1 : SeqSchedStep ⟨["G"], []⟩ ⟨["G"], [⟨["G"], none⟩]⟩ :=
    SeqSchedStep.tick ⟨["G"], []⟩ (by intro t ht; exact absurd ht (by simp))
  have h2 : SeqSchedStep ⟨["G"], [⟨["G"], none⟩]⟩ ⟨["G"], [⟨[], some ("G", 5)⟩]⟩ :=
    SeqSchedStep.start ⟨["G"], [⟨["G"], none⟩]⟩ 0 "G" [] 5 (by decide) rfl
  exact Relation.ReflTransGen.tail
    (Relation.ReflTransGen.tail Relation.ReflTransGen.refl h1) h2

end WhatsappAnalytics
